import Mathlib

/-!
Shallow embedding of the noguisteam repository (Steam wishlist sale
checker, `lib/wishlist.py`, and owned-library sync, `lib/sync.py`).

Prices coming back from the pricing service are decimal amounts; they are
modelled as rationals (`ℚ`) so that comparisons are exact.  JSON fields
that may be absent or null are modelled as `Option`.  Python `dict`s are
modelled as association lists with insertion-order-preserving overwrite
(`dictInsert`), matching CPython dict semantics.
-/

namespace Noguisteam

/-- One entry of the `deals` array of a pricing-service response item:
`price.amount`, `regular.amount`, the optional `cut`, `url` and
`storeLow.amount` fields of the deal object. -/
structure Deal where
  price : ℚ
  regular : ℚ
  cut : Option ℕ
  url : Option String
  storeLow : Option ℚ
deriving DecidableEq

/-- The `historyLow` object of a response item (`all` and `y1` sub-keys);
an absent `historyLow` is the object with both fields absent. -/
structure HistoryLow where
  all : Option ℚ
  y1 : Option ℚ
deriving DecidableEq

/-- One item of the `/games/prices/v3` response body. -/
structure ResponseItem where
  id : String
  deals : List Deal
  historyLow : HistoryLow
deriving DecidableEq

/-- The normalized per-game price dictionary built by `itad_get_prices`. -/
structure PriceData where
  current_price : ℚ
  regular_price : ℚ
  discount_percent : ℕ
  url : String
  store_low : Option ℚ
  historical_low : Option ℚ
  one_year_low : Option ℚ
deriving DecidableEq

/-- A result row assembled in `main` step 4: a price record joined with the
resolved game name and the assigned deal tag. -/
structure DealRow where
  name : String
  current_price : ℚ
  regular_price : ℚ
  discount_percent : ℕ
  url : String
  store_low : Option ℚ
  historical_low : Option ℚ
  deal_tag : String × String
deriving DecidableEq

/-- Python-dict insertion: overwrite in place when the key is present
(keeping its position, as CPython does), append otherwise. -/
def dictInsert {β : Type} (m : List (String × β)) (k : String) (v : β) : List (String × β) :=
  if m.any (fun p => p.1 == k) then
    m.map (fun p => if p.1 == k then (k, v) else p)
  else
    m ++ [(k, v)]

/-- The `DEAL_TAGS` entry keyed `store_low` in the source. -/
def DEAL_TAGS_store_low : String × String := ("🔥 Steam All-Time Low", "bright_red")

/-- The `DEAL_TAGS` entry keyed `historical_low` in the source. -/
def DEAL_TAGS_historical_low : String × String := ("🏆 Cross-Store Low", "dark_orange")

/-- The `DEAL_TAGS` entry keyed `matching_lowest` in the source. -/
def DEAL_TAGS_matching_lowest : String × String := ("🔁 Matching Lowest", "yellow")

/-- The `DEAL_TAGS` entry keyed `on_sale` in the source. -/
def DEAL_TAGS_on_sale : String × String := ("🏷️  On Sale", "green")

/-- The guard `x is not None and current <= x` used by `classify_deal` for
each baseline: false when the baseline is absent. -/
def baselineMet (current : ℚ) : Option ℚ → Bool
  | none => false
  | some v => decide (current ≤ v)

/-- `classify_deal` from `lib/wishlist.py`: first matching tier wins. -/
def classify_deal (p : PriceData) : String × String :=
  if baselineMet p.current_price p.store_low then DEAL_TAGS_store_low
  else if baselineMet p.current_price p.historical_low then DEAL_TAGS_historical_low
  else if baselineMet p.current_price p.one_year_low then DEAL_TAGS_matching_lowest
  else DEAL_TAGS_on_sale

theorem baselineMet_iff (c : ℚ) (o : Option ℚ) :
    baselineMet c o = true ↔ ∃ v, o = some v ∧ c ≤ v := by
  cases o with
  | none => simp [baselineMet]
  | some v => simp [baselineMet]

/-- One step of Python `min` with a key: keep the current minimum, replacing
it only when the next element's key is strictly smaller. -/
def bestStep (b x : Deal) : Deal := if x.price < b.price then x else b

/-- Python `min(deals, key=lambda d: d["price"]["amount"])` on a nonempty
list: scan left to right with `bestStep`, so the first minimum encountered
wins; `none` exactly when the deals list is empty. -/
def selectBest : List Deal → Option Deal
  | [] => none
  | d :: ds => some (ds.foldl bestStep d)

/-- The price dictionary `itad_get_prices` stores for one response item,
given the selected best deal: `cut` defaults to `0` and `url` to the empty
string when absent; `store_low` is the best deal's `storeLow.amount`;
`historical_low` and `one_year_low` come from the item's `historyLow`
object under the `all` and `y1` sub-keys. -/
def mkPriceData (item : ResponseItem) (best : Deal) : PriceData :=
  { current_price := best.price
    regular_price := best.regular
    discount_percent := best.cut.getD 0
    url := best.url.getD ""
    store_low := best.storeLow
    historical_low := item.historyLow.all
    one_year_low := item.historyLow.y1 }

/-- One iteration of the response-processing loop of `itad_get_prices`:
items with an empty `deals` list are skipped (`if not deals: continue`);
for the rest the lowest-priced deal is selected and a normalized record is
stored under the item's id. -/
def pricesStep (prices : List (String × PriceData)) (item : ResponseItem) :
    List (String × PriceData) :=
  match selectBest item.deals with
  | none => prices
  | some best => dictInsert prices item.id (mkPriceData item best)

/-- The response-processing loop of `itad_get_prices` from
`lib/wishlist.py`: fold `pricesStep` over the response items, starting from
an empty dictionary. -/
def itad_get_prices (items : List ResponseItem) : List (String × PriceData) :=
  items.foldl pricesStep []

/-- `TAG_ORDER.get(label, 9)` from `lib/wishlist.py`: the rank of a deal-tag
label, with sentinel `9` for labels outside the four defined tiers. -/
def TAG_ORDER (label : String) : ℕ :=
  if label = "🔥 Steam All-Time Low" then 0
  else if label = "🏆 Cross-Store Low" then 1
  else if label = "🔁 Matching Lowest" then 2
  else if label = "🏷️  On Sale" then 3
  else 9

/-- Sort key of the `"discount"` strategy: Python
`sorted(key=..., reverse=True)` is the stable sort by descending
`discount_percent`, i.e. the stable merge sort under this relation. -/
def discountLe (a b : DealRow) : Bool :=
  decide (b.discount_percent ≤ a.discount_percent)

/-- Sort relation of the `"price"` strategy: ascending `current_price`. -/
def priceLe (a b : DealRow) : Bool :=
  decide (a.current_price ≤ b.current_price)

/-- The tuple key `(TAG_ORDER.get(tag, 9), current_price)` of the `"deal"`
strategy. -/
def dealKey (r : DealRow) : ℕ × ℚ :=
  (TAG_ORDER r.deal_tag.1, r.current_price)

/-- Python tuple comparison on the `"deal"` sort key: lexicographic. -/
def dealLe (a b : DealRow) : Bool :=
  decide ((dealKey a).1 < (dealKey b).1 ∨
    ((dealKey a).1 = (dealKey b).1 ∧ (dealKey a).2 ≤ (dealKey b).2))

/-- `sort_results` from `lib/wishlist.py`.  Python `sorted` is the stable
sort by the given key, which is exactly `List.mergeSort` under the
corresponding boolean relation; any strategy other than `"discount"` and
`"price"` falls into the default `"deal"` branch. -/
def sort_results (results : List DealRow) (sort_by : String) : List DealRow :=
  if sort_by = "discount" then results.mergeSort discountLe
  else if sort_by = "price" then results.mergeSort priceLe
  else results.mergeSort dealLe

/-- The response-processing loop of `itad_lookup_ids`: keep the entries whose
value is truthy in Python (neither null nor the empty string), stripping the
`app/` prefix from the key. -/
def buildIdMap (data : List (String × Option String)) : List (String × String) :=
  data.foldl
    (fun m p =>
      match p.2 with
      | none => m
      | some u => if u = "" then m else dictInsert m (p.1.replace "app/" "") u)
    []

/-- Record of one execution of `itad_lookup_ids`: whether the batch POST was
issued, the request body (`shop_ids`), and the returned id map. -/
structure LookupRun where
  requested : Bool
  shop_ids : List String
  id_map : List (String × String)
deriving DecidableEq

/-- `itad_lookup_ids` from `lib/wishlist.py`, with the HTTP layer abstracted
as a function from the request body to the (successful) response data.  The
source builds `shop_ids` and then unconditionally issues the POST — there is
no empty-input shortcut — so `requested` is always `true`. -/
def itad_lookup_ids_run (app_ids : List String)
    (service : List String → List (String × Option String)) : LookupRun :=
  let shop_ids := app_ids.map (fun a => "app/" ++ a)
  { requested := true
    shop_ids := shop_ids
    id_map := buildIdMap (service shop_ids) }

/-- Outcome of one run of `main`: `errorExit` models `sys.exit(1)`,
`emptyExit` models the successful early exits (`sys.exit(0)`), `results`
models a completed run reaching the display step. -/
inductive RunOutcome where
  | errorExit : String → RunOutcome
  | emptyExit : String → RunOutcome
  | results : List DealRow → RunOutcome
deriving DecidableEq

/-- The result row `main` step 4 assembles from a resolved name and a price
record. -/
def mkRow (name : String) (pd : PriceData) : DealRow :=
  { name := name
    current_price := pd.current_price
    regular_price := pd.regular_price
    discount_percent := pd.discount_percent
    url := pd.url
    store_low := pd.store_low
    historical_low := pd.historical_low
    deal_tag := classify_deal pd }

/-- The dict comprehension `{v: k for k, v in steam_to_itad.items()}`:
invert an association list, later entries overwriting earlier ones. -/
def invertMap (m : List (String × String)) : List (String × String) :=
  m.foldl (fun acc p => dictInsert acc p.2 p.1) []

/-- The pipeline of `main` from `lib/wishlist.py`, starting after the
configuration checks, with the wishlist (app id → name) and the two ITAD
services abstracted as inputs.  Mirrors the source control flow: empty
wishlist exits successfully; zero resolved ids exits with an error
(`sys.exit(1)`); zero priced items exits successfully; otherwise the rows
are assembled, sorted and displayed. -/
def runPipeline (wishlist : List (String × String))
    (lookupService : List String → List (String × Option String))
    (priceService : List String → List ResponseItem)
    (sort_by : String) : RunOutcome :=
  if wishlist.isEmpty then
    RunOutcome.emptyExit "Wishlist is empty or Steam returned no items."
  else
    let app_ids := wishlist.map Prod.fst
    let steam_to_itad := (itad_lookup_ids_run app_ids lookupService).id_map
    let itad_to_steam := invertMap steam_to_itad
    let itad_ids := steam_to_itad.map Prod.snd
    if itad_ids.isEmpty then
      RunOutcome.errorExit "No games resolved via ITAD. Check your API key."
    else
      let prices := itad_get_prices (priceService itad_ids)
      if prices.isEmpty then
        RunOutcome.emptyExit "None of your wishlisted games are currently on sale."
      else
        let rows := prices.map (fun kv =>
          let steam_app_id := (itad_to_steam.lookup kv.1).getD ""
          let name := (wishlist.lookup steam_app_id).getD ("ITAD:" ++ kv.1)
          mkRow name kv.2)
        RunOutcome.results (sort_results rows sort_by)

/-- One row of the `games` table written by `lib/sync.py`. -/
structure GameRow where
  appid : ℕ
  name : String
  playtime_forever : ℕ
  last_played : ℕ
  installed : Bool
deriving DecidableEq

/-- `INSERT OR REPLACE INTO games` with `appid INTEGER PRIMARY KEY`: the
conflicting row (same `appid`), if any, is replaced.  The table is a set of
rows; the list order carries no meaning. -/
def upsertGame (t : List GameRow) (r : GameRow) : List GameRow :=
  r :: t.filter (fun x => x.appid != r.appid)

/-- The write loop of `lib/sync.py`: upsert every row fetched from the
service into the `games` table, in response order. -/
def syncGames (t : List GameRow) (games : List GameRow) : List GameRow :=
  games.foldl upsertGame t

theorem classify_deal_eq_store (p : PriceData)
    (h0 : baselineMet p.current_price p.store_low = true) :
    classify_deal p = DEAL_TAGS_store_low := by
  simp [classify_deal, h0]

theorem classify_deal_eq_hist (p : PriceData)
    (h0 : baselineMet p.current_price p.store_low = false)
    (h1 : baselineMet p.current_price p.historical_low = true) :
    classify_deal p = DEAL_TAGS_historical_low := by
  simp [classify_deal, h0, h1]

theorem classify_deal_eq_y1 (p : PriceData)
    (h0 : baselineMet p.current_price p.store_low = false)
    (h1 : baselineMet p.current_price p.historical_low = false)
    (h2 : baselineMet p.current_price p.one_year_low = true) :
    classify_deal p = DEAL_TAGS_matching_lowest := by
  simp [classify_deal, h0, h1, h2]

theorem classify_deal_eq_default (p : PriceData)
    (h0 : baselineMet p.current_price p.store_low = false)
    (h1 : baselineMet p.current_price p.historical_low = false)
    (h2 : baselineMet p.current_price p.one_year_low = false) :
    classify_deal p = DEAL_TAGS_on_sale := by
  simp [classify_deal, h0, h1, h2]

/-- C2: `classify_deal` evaluates the tier conditions in strict precedence
order with first match winning: the store-low condition (tier 0) beats the
cross-store historical-low condition (tier 1), which beats the one-year-low
condition (tier 2), which beats the default on-sale tag (tier 3).  In
particular a record satisfying both the tier-0 and tier-1 conditions is
assigned tier 0 (first conjunct, which needs no assumption on the other
conditions). -/
theorem classify_deal_precedence (p : PriceData) :
    (baselineMet p.current_price p.store_low = true →
      classify_deal p = DEAL_TAGS_store_low) ∧
    (baselineMet p.current_price p.store_low = false →
      baselineMet p.current_price p.historical_low = true →
      classify_deal p = DEAL_TAGS_historical_low) ∧
    (baselineMet p.current_price p.store_low = false →
      baselineMet p.current_price p.historical_low = false →
      baselineMet p.current_price p.one_year_low = true →
      classify_deal p = DEAL_TAGS_matching_lowest) ∧
    (baselineMet p.current_price p.store_low = false →
      baselineMet p.current_price p.historical_low = false →
      baselineMet p.current_price p.one_year_low = false →
      classify_deal p = DEAL_TAGS_on_sale) :=
  ⟨classify_deal_eq_store p, classify_deal_eq_hist p,
    classify_deal_eq_y1 p, classify_deal_eq_default p⟩

/-- A record whose current price meets both the store-low and the
historical-low baselines simultaneously. -/
def sampleBoth : PriceData :=
  { current_price := 5, regular_price := 10, discount_percent := 50, url := "",
    store_low := some 5, historical_low := some 5, one_year_low := none }

/-- Witness for C2: on a record meeting the tier-0 and tier-1 conditions at
once, the classifier assigns tier 0. -/
theorem classify_deal_precedence_witness :
    baselineMet sampleBoth.current_price sampleBoth.store_low = true ∧
    baselineMet sampleBoth.current_price sampleBoth.historical_low = true ∧
    classify_deal sampleBoth = DEAL_TAGS_store_low :=
  ⟨by decide, by decide, (classify_deal_precedence sampleBoth).1 (by decide)⟩

/-- C6: the classifier is total — every record is assigned exactly one of
the four tags — and each of tiers 0–2 is only ever assigned when the
corresponding baseline is present (and met): an absent baseline never
satisfies that tier's condition. -/
theorem classify_deal_total_and_baselines (p : PriceData) :
    (classify_deal p = DEAL_TAGS_store_low ∨
      classify_deal p = DEAL_TAGS_historical_low ∨
      classify_deal p = DEAL_TAGS_matching_lowest ∨
      classify_deal p = DEAL_TAGS_on_sale) ∧
    (classify_deal p = DEAL_TAGS_store_low →
      ∃ v, p.store_low = some v ∧ p.current_price ≤ v) ∧
    (classify_deal p = DEAL_TAGS_historical_low →
      ∃ v, p.historical_low = some v ∧ p.current_price ≤ v) ∧
    (classify_deal p = DEAL_TAGS_matching_lowest →
      ∃ v, p.one_year_low = some v ∧ p.current_price ≤ v) := by
  cases h0 : baselineMet p.current_price p.store_low with
  | true =>
    have hc := classify_deal_eq_store p h0
    refine ⟨Or.inl hc, fun _ => (baselineMet_iff _ _).mp h0, fun h => ?_, fun h => ?_⟩ <;>
      rw [hc] at h <;> exact absurd h (by decide)
  | false =>
    cases h1 : baselineMet p.current_price p.historical_low with
    | true =>
      have hc := classify_deal_eq_hist p h0 h1
      refine ⟨Or.inr (Or.inl hc), fun h => ?_, fun _ => (baselineMet_iff _ _).mp h1,
        fun h => ?_⟩ <;> rw [hc] at h <;> exact absurd h (by decide)
    | false =>
      cases h2 : baselineMet p.current_price p.one_year_low with
      | true =>
        have hc := classify_deal_eq_y1 p h0 h1 h2
        refine ⟨Or.inr (Or.inr (Or.inl hc)), fun h => ?_, fun h => ?_,
          fun _ => (baselineMet_iff _ _).mp h2⟩ <;> rw [hc] at h <;> exact absurd h (by decide)
      | false =>
        have hc := classify_deal_eq_default p h0 h1 h2
        refine ⟨Or.inr (Or.inr (Or.inr hc)), fun h => ?_, fun h => ?_, fun h => ?_⟩ <;>
          rw [hc] at h <;> exact absurd h (by decide)

/-- A record where only the historical-low baseline is present and met. -/
def sampleHist : PriceData :=
  { current_price := 5, regular_price := 10, discount_percent := 50, url := "",
    store_low := none, historical_low := some 5, one_year_low := none }

/-- Witness for C6: the classifier assigned tier 1 to `sampleHist`, so its
historical-low baseline is present and met. -/
theorem classify_deal_total_and_baselines_witness :
    ∃ v, sampleHist.historical_low = some v ∧ sampleHist.current_price ≤ v :=
  (classify_deal_total_and_baselines sampleHist).2.2.1 (by decide)

theorem bestStep_left (b x : Deal) (h : x.price < b.price) : bestStep b x = x := by
  simp [bestStep, h]

theorem bestStep_right (b x : Deal) (h : ¬ x.price < b.price) : bestStep b x = b := by
  simp [bestStep, h]

theorem bestFold_spec (ds : List Deal) : ∀ d : Deal,
    (∀ x ∈ d :: ds, (List.foldl bestStep d ds).price ≤ x.price) ∧
    ∃ pre post, d :: ds = pre ++ (List.foldl bestStep d ds) :: post ∧
      ∀ x ∈ pre, (List.foldl bestStep d ds).price < x.price := by
  induction ds with
  | nil =>
    intro d
    refine ⟨?_, [], [], rfl, by simp⟩
    intro x hx
    rw [List.mem_singleton] at hx
    simp [hx]
  | cons x xs ih =>
    intro d
    obtain ⟨hmin, pre, post, hdec, hpre⟩ := ih (bestStep d x)
    by_cases hlt : x.price < d.price
    · have hstep : List.foldl bestStep d (x :: xs) = List.foldl bestStep x xs := by
        show List.foldl bestStep (bestStep d x) xs = List.foldl bestStep x xs
        rw [bestStep_left d x hlt]
      rw [bestStep_left d x hlt] at hmin hdec hpre
      refine ⟨?_, d :: pre, post, ?_, ?_⟩
      · intro y hy
        rw [hstep]
        rcases List.mem_cons.mp hy with h | h
        · subst h
          exact le_of_lt (lt_of_le_of_lt (hmin x (List.mem_cons_self x xs)) hlt)
        · exact hmin y h
      · rw [hstep, List.cons_append, ← hdec]
      · intro y hy
        rw [hstep]
        rcases List.mem_cons.mp hy with h | h
        · subst h
          exact lt_of_le_of_lt (hmin x (List.mem_cons_self x xs)) hlt
        · exact hpre y h
    · have hstep : List.foldl bestStep d (x :: xs) = List.foldl bestStep d xs := by
        show List.foldl bestStep (bestStep d x) xs = List.foldl bestStep d xs
        rw [bestStep_right d x hlt]
      rw [bestStep_right d x hlt] at hmin hdec hpre
      have hdx : d.price ≤ x.price := le_of_not_lt hlt
      have hbd : (List.foldl bestStep d xs).price ≤ d.price :=
        hmin d (List.mem_cons_self d xs)
      refine ⟨?_, ?_⟩
      · intro y hy
        rw [hstep]
        rcases List.mem_cons.mp hy with h | h
        · subst h; exact hbd
        · rcases List.mem_cons.mp h with h2 | h2
          · subst h2; exact le_trans hbd hdx
          · exact hmin y (List.mem_cons_of_mem d h2)
      · cases pre with
        | nil =>
          rw [List.nil_append] at hdec
          have hd : d = List.foldl bestStep d xs := (List.cons.injEq _ _ _ _).mp hdec |>.1
          refine ⟨[], x :: xs, ?_, by simp⟩
          rw [hstep, List.nil_append, ← hd]
        | cons q pre₂ =>
          have hq : d = q ∧ xs = pre₂ ++ (List.foldl bestStep d xs) :: post :=
            (List.cons.injEq _ _ _ _).mp hdec
          have hbq : (List.foldl bestStep d xs).price < d.price := by
            have h3 := hpre q (List.mem_cons_self q pre₂)
            rw [← hq.1] at h3
            exact h3
          refine ⟨d :: x :: pre₂, post, ?_, ?_⟩
          · rw [hstep, List.cons_append, List.cons_append, ← hq.2]
          · intro y hy
            rw [hstep]
            rcases List.mem_cons.mp hy with h | h
            · subst h; exact hbq
            · rcases List.mem_cons.mp h with h2 | h2
              · subst h2; exact lt_of_lt_of_le hbq hdx
              · exact hpre y (List.mem_cons_of_mem q h2)

/-- C5: when the aggregator's `min` over a nonempty deals list selects
`best`, then `best` has the numerically lowest current price among all
offers, and it is the first-encountered offer attaining that price: the
deals list splits as `pre ++ best :: post` with every offer before `best`
strictly more expensive. -/
theorem selectBest_lowest_first_tie (deals : List Deal) (best : Deal)
    (h : selectBest deals = some best) :
    (∀ d ∈ deals, best.price ≤ d.price) ∧
    ∃ pre post, deals = pre ++ best :: post ∧ ∀ d ∈ pre, best.price < d.price := by
  cases deals with
  | nil => simp [selectBest] at h
  | cons d ds =>
    simp only [selectBest, Option.some.injEq] at h
    subst h
    exact bestFold_spec ds d

/-- First offer of the C5 tie example: price 5. -/
def sampleDealA : Deal :=
  { price := 5, regular := 10, cut := some 50, url := some "a", storeLow := none }

/-- Second offer of the C5 tie example: also price 5, a different offer. -/
def sampleDealB : Deal :=
  { price := 5, regular := 10, cut := some 50, url := some "b", storeLow := none }

/-- Third offer of the C5 tie example: price 7. -/
def sampleDealC : Deal :=
  { price := 7, regular := 10, cut := some 30, url := some "c", storeLow := none }

/-- Witness for C5: on two tied lowest offers the first-encountered one is
selected. -/
theorem selectBest_lowest_first_tie_witness :
    (∀ d ∈ [sampleDealA, sampleDealB, sampleDealC], sampleDealA.price ≤ d.price) ∧
    ∃ pre post, [sampleDealA, sampleDealB, sampleDealC] = pre ++ sampleDealA :: post ∧
      ∀ d ∈ pre, sampleDealA.price < d.price :=
  selectBest_lowest_first_tie [sampleDealA, sampleDealB, sampleDealC] sampleDealA (by decide)

/-- C9: when the selected best offer carries no `cut` field, the record's
`discount_percent` is `0`, and when it carries no `url` field the record's
`url` is the empty string; the aggregator still produces the record (here
shown on a one-item response via `lookup`). -/
theorem itad_get_prices_absent_defaults (item : ResponseItem) (best : Deal)
    (hb : selectBest item.deals = some best)
    (hc : best.cut = none) (hu : best.url = none) :
    (itad_get_prices [item]).lookup item.id = some (mkPriceData item best) ∧
    (mkPriceData item best).discount_percent = 0 ∧
    (mkPriceData item best).url = "" := by
  refine ⟨?_, by simp [mkPriceData, hc], by simp [mkPriceData, hu]⟩
  simp [itad_get_prices, pricesStep, hb, dictInsert, List.lookup]

/-- The single offer of the C9 example: no `cut`, no `url`. -/
def sampleDealDefaults : Deal :=
  { price := 5, regular := 10, cut := none, url := none, storeLow := none }

/-- The single response item of the C9 example. -/
def sampleItemDefaults : ResponseItem :=
  { id := "u1", deals := [sampleDealDefaults], historyLow := { all := none, y1 := none } }

/-- Witness for C9 on a concrete one-item response. -/
theorem itad_get_prices_absent_defaults_witness :
    (itad_get_prices [sampleItemDefaults]).lookup sampleItemDefaults.id
      = some (mkPriceData sampleItemDefaults sampleDealDefaults) ∧
    (mkPriceData sampleItemDefaults sampleDealDefaults).discount_percent = 0 ∧
    (mkPriceData sampleItemDefaults sampleDealDefaults).url = "" :=
  itad_get_prices_absent_defaults sampleItemDefaults sampleDealDefaults
    (by decide) (by decide) (by decide)

theorem dealLe_trans : ∀ a b c : DealRow, dealLe a b = true → dealLe b c = true →
    dealLe a c = true := by
  intro a b c hab hbc
  simp only [dealLe, decide_eq_true_eq] at hab hbc ⊢
  rcases hab with h | ⟨h1, h2⟩ <;> rcases hbc with h' | ⟨h1', h2'⟩
  · exact Or.inl (lt_trans h h')
  · exact Or.inl (h1' ▸ h)
  · exact Or.inl (h1 ▸ h')
  · exact Or.inr ⟨h1.trans h1', le_trans h2 h2'⟩

theorem dealLe_total : ∀ a b : DealRow, (dealLe a b || dealLe b a) = true := by
  intro a b
  simp only [dealLe, Bool.or_eq_true, decide_eq_true_eq]
  rcases lt_trichotomy (dealKey a).1 (dealKey b).1 with h | h | h
  · exact Or.inl (Or.inl h)
  · rcases le_total (dealKey a).2 (dealKey b).2 with h2 | h2
    · exact Or.inl (Or.inr ⟨h, h2⟩)
    · exact Or.inr (Or.inr ⟨h.symm, h2⟩)
  · exact Or.inr (Or.inl h)

theorem priceLe_trans : ∀ a b c : DealRow, priceLe a b = true → priceLe b c = true →
    priceLe a c = true := by
  intro a b c hab hbc
  simp only [priceLe, decide_eq_true_eq] at hab hbc ⊢
  exact le_trans hab hbc

theorem priceLe_total : ∀ a b : DealRow, (priceLe a b || priceLe b a) = true := by
  intro a b
  simp only [priceLe, Bool.or_eq_true, decide_eq_true_eq]
  exact le_total _ _

theorem discountLe_trans : ∀ a b c : DealRow, discountLe a b = true → discountLe b c = true →
    discountLe a c = true := by
  intro a b c hab hbc
  simp only [discountLe, decide_eq_true_eq] at hab hbc ⊢
  exact le_trans hbc hab

theorem discountLe_total : ∀ a b : DealRow, (discountLe a b || discountLe b a) = true := by
  intro a b
  simp only [discountLe, Bool.or_eq_true, decide_eq_true_eq]
  exact le_total _ _

/-- C4: under the `"deal"` strategy the ranker returns a permutation of its
input that is sorted ascending by the pair `(severity rank, current
price)` — i.e. tier-grouped with prices ascending inside each tier — and any
label outside the four defined tiers receives the sentinel rank `9`, which
is strictly greater than every defined tier's rank, so such rows sort after
all defined tiers instead of raising an error. -/
theorem sort_results_deal_spec (results : List DealRow) :
    List.Perm (sort_results results "deal") results ∧
    List.Pairwise (fun a b => dealLe a b = true) (sort_results results "deal") ∧
    (∀ label : String,
      label ≠ "🔥 Steam All-Time Low" → label ≠ "🏆 Cross-Store Low" →
      label ≠ "🔁 Matching Lowest" → label ≠ "🏷️  On Sale" →
      TAG_ORDER label = 9 ∧
      TAG_ORDER "🔥 Steam All-Time Low" < TAG_ORDER label ∧
      TAG_ORDER "🏆 Cross-Store Low" < TAG_ORDER label ∧
      TAG_ORDER "🔁 Matching Lowest" < TAG_ORDER label ∧
      TAG_ORDER "🏷️  On Sale" < TAG_ORDER label) := by
  have hs : sort_results results "deal" = results.mergeSort dealLe := by
    simp [sort_results]
  refine ⟨?_, ?_, ?_⟩
  · rw [hs]
    exact List.mergeSort_perm results dealLe
  · rw [hs]
    exact List.sorted_mergeSort dealLe_trans dealLe_total results
  · intro label h1 h2 h3 h4
    have h9 : TAG_ORDER label = 9 := by
      simp [TAG_ORDER, h1, h2, h3, h4]
    rw [h9]
    refine ⟨rfl, ?_, ?_, ?_, ?_⟩ <;> decide

/-- First row of the C4 example: on sale, price 900. -/
def sampleRowX : DealRow :=
  { name := "X", current_price := 900, regular_price := 1000, discount_percent := 10,
    url := "x", store_low := none, historical_low := none, deal_tag := DEAL_TAGS_on_sale }

/-- Second row of the C4 example: cross-store low, price 1500. -/
def sampleRowY : DealRow :=
  { name := "Y", current_price := 1500, regular_price := 3000, discount_percent := 50,
    url := "y", store_low := none, historical_low := some 1500,
    deal_tag := DEAL_TAGS_historical_low }

/-- Witness for C4 on a concrete two-row list and a concrete unknown label. -/
theorem sort_results_deal_spec_witness :
    List.Perm (sort_results [sampleRowX, sampleRowY] "deal") [sampleRowX, sampleRowY] ∧
    TAG_ORDER "mystery" = 9 ∧
    TAG_ORDER "🏷️  On Sale" < TAG_ORDER "mystery" := by
  have h := (sort_results_deal_spec []).2.2 "mystery"
    (by decide) (by decide) (by decide) (by decide)
  exact ⟨(sort_results_deal_spec [sampleRowX, sampleRowY]).1, h.1, h.2.2.2.2⟩

/-- C8: the `"price"` and `"discount"` strategies sort stably — two rows
with equal sort keys (equal `current_price` for `"price"`, equal
`discount_percent` for `"discount"`) keep their relative input order, stated
as preservation of the two-element sublist. -/
theorem sort_results_stable (results : List DealRow) (a b : DealRow)
    (hsub : List.Sublist [a, b] results) :
    (a.current_price = b.current_price → List.Sublist [a, b] (sort_results results "price")) ∧
    (a.discount_percent = b.discount_percent → List.Sublist [a, b] (sort_results results "discount")) := by
  constructor
  · intro hk
    have hs : sort_results results "price" = results.mergeSort priceLe := by
      simp [sort_results]
    rw [hs]
    exact List.pair_sublist_mergeSort priceLe_trans priceLe_total
      (by simp [priceLe, hk]) hsub
  · intro hk
    have hs : sort_results results "discount" = results.mergeSort discountLe := by
      simp [sort_results]
    rw [hs]
    exact List.pair_sublist_mergeSort discountLe_trans discountLe_total
      (by simp [discountLe, hk]) hsub

/-- First row of the C8 example: price 5, discount 50. -/
def sampleRowP1 : DealRow :=
  { name := "P1", current_price := 5, regular_price := 10, discount_percent := 50,
    url := "p1", store_low := none, historical_low := none, deal_tag := DEAL_TAGS_on_sale }

/-- Second row of the C8 example: same price and discount, a different row. -/
def sampleRowP2 : DealRow :=
  { name := "P2", current_price := 5, regular_price := 10, discount_percent := 50,
    url := "p2", store_low := none, historical_low := none, deal_tag := DEAL_TAGS_on_sale }

/-- Witness for C8: two equal-key rows keep their input order under both
strategies. -/
theorem sort_results_stable_witness :
    List.Sublist [sampleRowP1, sampleRowP2] (sort_results [sampleRowP1, sampleRowP2] "price") ∧
    List.Sublist [sampleRowP1, sampleRowP2] (sort_results [sampleRowP1, sampleRowP2] "discount") := by
  have h := sort_results_stable [sampleRowP1, sampleRowP2] sampleRowP1 sampleRowP2
    (List.Sublist.refl _)
  exact ⟨h.1 (by decide), h.2 (by decide)⟩

theorem selectBest_eq_none_iff (deals : List Deal) :
    selectBest deals = none ↔ deals = [] := by
  cases deals <;> simp [selectBest]

theorem mem_keys_dictInsert {β : Type} (m : List (String × β)) (k a : String) (v : β) :
    a ∈ (dictInsert m k v).map Prod.fst ↔ a = k ∨ a ∈ m.map Prod.fst := by
  unfold dictInsert
  cases h : m.any (fun p => p.1 == k) with
  | true =>
    have hmap : (m.map (fun p => if p.1 == k then (k, v) else p)).map Prod.fst
        = m.map Prod.fst := by
      rw [List.map_map]
      apply List.map_congr_left
      intro p _
      by_cases hpk : p.1 = k
      · simp [hpk]
      · simp [hpk]
    simp only [h, if_true]
    rw [hmap]
    constructor
    · exact Or.inr
    · rintro (rfl | h2)
      · obtain ⟨p, hp, hpk⟩ := List.any_eq_true.mp h
        exact List.mem_map.mpr ⟨p, hp, eq_of_beq hpk⟩
      · exact h2
  | false =>
    simp only [h, Bool.false_eq_true, if_false]
    rw [List.map_append]
    simp [or_comm]

theorem mem_keys_prices_fold (items : List ResponseItem) :
    ∀ (acc : List (String × PriceData)) (k : String),
      k ∈ (items.foldl pricesStep acc).map Prod.fst ↔
        k ∈ acc.map Prod.fst ∨ ∃ item, item ∈ items ∧ item.id = k ∧ item.deals ≠ [] := by
  induction items with
  | nil => simp
  | cons item rest ih =>
    intro acc k
    rw [List.foldl_cons]
    cases hsel : selectBest item.deals with
    | none =>
      have hdeals : item.deals = [] := (selectBest_eq_none_iff item.deals).mp hsel
      rw [show pricesStep acc item = acc by simp [pricesStep, hsel], ih]
      constructor
      · rintro (h | ⟨it, hit, hid, hne⟩)
        · exact Or.inl h
        · exact Or.inr ⟨it, List.mem_cons_of_mem item hit, hid, hne⟩
      · rintro (h | ⟨it, hit, hid, hne⟩)
        · exact Or.inl h
        · rcases List.mem_cons.mp hit with rfl | hit2
          · exact absurd hdeals hne
          · exact Or.inr ⟨it, hit2, hid, hne⟩
    | some best =>
      have hdeals : item.deals ≠ [] := by
        intro hd
        rw [(selectBest_eq_none_iff item.deals).mpr hd] at hsel
        exact Option.noConfusion hsel
      rw [show pricesStep acc item = dictInsert acc item.id (mkPriceData item best) by
        simp [pricesStep, hsel], ih, mem_keys_dictInsert]
      constructor
      · rintro ((rfl | h) | ⟨it, hit, hid, hne⟩)
        · exact Or.inr ⟨item, List.mem_cons_self item rest, rfl, hdeals⟩
        · exact Or.inl h
        · exact Or.inr ⟨it, List.mem_cons_of_mem item hit, hid, hne⟩
      · rintro (h | ⟨it, hit, hid, hne⟩)
        · exact Or.inl (Or.inr h)
        · rcases List.mem_cons.mp hit with rfl | hit2
          · exact Or.inl (Or.inl hid.symm)
          · exact Or.inr ⟨it, hit2, hid, hne⟩

/-- C7: a key appears in the aggregator's output only for response items
with at least one offer, and — when response ids are distinct, as one
response keys items by id — an item whose deals list is empty contributes no
entry at all: its id is absent from the output, rather than mapped to a
placeholder record. -/
theorem itad_get_prices_only_with_offers (items : List ResponseItem) :
    (∀ k, k ∈ (itad_get_prices items).map Prod.fst →
      ∃ item, item ∈ items ∧ item.id = k ∧ item.deals ≠ []) ∧
    ((items.map ResponseItem.id).Nodup →
      ∀ item, item ∈ items → item.deals = [] →
        item.id ∉ (itad_get_prices items).map Prod.fst) := by
  constructor
  · intro k hk
    have h := (mem_keys_prices_fold items [] k).mp hk
    simpa using h
  · intro hnd item hit hdeals hk
    have h := (mem_keys_prices_fold items [] item.id).mp hk
    simp only [List.map_nil, List.not_mem_nil, false_or] at h
    obtain ⟨it, hit2, hid, hne⟩ := h
    have : it = item := List.inj_on_of_nodup_map hnd hit2 hit hid
    rw [this] at hne
    exact hne hdeals

/-- Response item of the C7 example with no offer. -/
def sampleItemNoOffer : ResponseItem :=
  { id := "u1", deals := [], historyLow := { all := none, y1 := none } }

/-- The single offer of the C7 example's second item. -/
def sampleOfferDeal : Deal :=
  { price := 5, regular := 10, cut := some 50, url := some "u", storeLow := none }

/-- Response item of the C7 example with one offer. -/
def sampleItemOffer : ResponseItem :=
  { id := "u2", deals := [sampleOfferDeal], historyLow := { all := none, y1 := none } }

/-- Witness for C7: on a two-item response the zero-offer item's id is
absent from the output and the key that is present belongs to an item with
an offer. -/
theorem itad_get_prices_only_with_offers_witness :
    sampleItemNoOffer.id
      ∉ (itad_get_prices [sampleItemNoOffer, sampleItemOffer]).map Prod.fst ∧
    (∃ item, item ∈ [sampleItemNoOffer, sampleItemOffer] ∧ item.id = "u2" ∧
      item.deals ≠ []) := by
  have h := itad_get_prices_only_with_offers [sampleItemNoOffer, sampleItemOffer]
  exact ⟨h.2 (by decide) sampleItemNoOffer (by decide) (by decide),
    h.1 "u2" (by decide)⟩

/-- C3 counterexample: on the empty identifier list the resolver still
issues the batch request — the claim's "without making a request" is false
at this input (the embedding records the unconditional POST of the
source). -/
theorem itad_lookup_ids_empty_still_requests :
    (itad_lookup_ids_run [] (fun _ => [])).requested = true := rfl

/-- C3 amended: on an empty input sequence the resolver still makes the
batch request, with an empty request body; its returned mapping is exactly
the truthy entries of the service response, so an empty response yields an
empty mapping. -/
theorem itad_lookup_ids_empty_input
    (service : List String → List (String × Option String)) :
    (itad_lookup_ids_run [] service).requested = true ∧
    (itad_lookup_ids_run [] service).shop_ids = [] ∧
    (service [] = [] → (itad_lookup_ids_run [] service).id_map = []) := by
  refine ⟨rfl, rfl, fun h => ?_⟩
  simp [itad_lookup_ids_run, buildIdMap, h]

/-- Witness for C3's amended statement at a concrete service. -/
theorem itad_lookup_ids_empty_input_witness :
    (itad_lookup_ids_run [] (fun _ => [])).id_map = [] :=
  (itad_lookup_ids_empty_input (fun _ => [])).2.2 rfl

/-- C1 counterexample: with a nonempty wishlist whose only identifier the
mapping service does not recognize, the run ends in the error exit
(`sys.exit(1)` with the API-key message), not in a normal zero-result end
state. -/
theorem runPipeline_zero_resolved_error_concrete :
    runPipeline [("20", "Beta")] (fun _ => [("app/20", none)]) (fun _ => []) "deal"
      = RunOutcome.errorExit "No games resolved via ITAD. Check your API key." := by
  rfl

/-- C1 amended: whenever the wishlist is nonempty and identity resolution
yields zero mappings, the pipeline terminates early — the outcome does not
depend on the price service or the sort strategy, so the price service is
never contacted — but it terminates as an error exit with the
API-key message, unlike the empty-wishlist and nothing-on-sale cases, which
are successful exits. -/
theorem runPipeline_zero_resolved (wishlist : List (String × String))
    (lookupService : List String → List (String × Option String))
    (priceService priceService' : List String → List ResponseItem)
    (sb sb' : String)
    (hw : wishlist ≠ [])
    (hz : (itad_lookup_ids_run (wishlist.map Prod.fst) lookupService).id_map = []) :
    runPipeline wishlist lookupService priceService sb
      = RunOutcome.errorExit "No games resolved via ITAD. Check your API key." ∧
    runPipeline wishlist lookupService priceService sb
      = runPipeline wishlist lookupService priceService' sb' := by
  have hemp : wishlist.isEmpty = false := by
    cases wishlist with
    | nil => exact absurd rfl hw
    | cons a l => rfl
  have key : ∀ (ps : List String → List ResponseItem) (s : String),
      runPipeline wishlist lookupService ps s
        = RunOutcome.errorExit "No games resolved via ITAD. Check your API key." := by
    intro ps s
    unfold runPipeline
    rw [hemp]
    simp [hz]
  exact ⟨key priceService sb,
    (key priceService sb).trans (key priceService' sb').symm⟩

/-- Witness for C1's amended statement at a concrete run. -/
theorem runPipeline_zero_resolved_witness :
    runPipeline [("30", "Gamma")] (fun _ => [("app/30", some "")]) (fun _ => []) "price"
      = RunOutcome.errorExit "No games resolved via ITAD. Check your API key." :=
  (runPipeline_zero_resolved [("30", "Gamma")] (fun _ => [("app/30", some "")])
    (fun _ => []) (fun _ => []) "price" "deal" (by decide) (by decide)).1

/-- A row survives a batch untouched iff no row of the batch carries its
primary key. -/
def keyAbsent (games : List GameRow) (x : GameRow) : Bool :=
  decide (x.appid ∉ games.map GameRow.appid)

theorem upsertGame_keys_nodup (t : List GameRow) (r : GameRow)
    (h : (t.map GameRow.appid).Nodup) :
    ((upsertGame t r).map GameRow.appid).Nodup := by
  unfold upsertGame
  rw [List.map_cons]
  refine List.nodup_cons.mpr ⟨?_, ?_⟩
  · intro hmem
    obtain ⟨x, hx, hxe⟩ := List.mem_map.mp hmem
    have hne := List.of_mem_filter hx
    rw [bne_iff_ne] at hne
    exact hne hxe
  · exact h.sublist ((List.filter_sublist t).map GameRow.appid)

theorem syncGames_keys_nodup (games : List GameRow) : ∀ t : List GameRow,
    (t.map GameRow.appid).Nodup → ((syncGames t games).map GameRow.appid).Nodup := by
  induction games with
  | nil => exact fun t h => h
  | cons r rest ih => exact fun t h => ih _ (upsertGame_keys_nodup t r h)

theorem syncGames_decompose (games : List GameRow) : ∀ t : List GameRow,
    syncGames t games = syncGames [] games ++ t.filter (keyAbsent games) := by
  induction games with
  | nil =>
    intro t
    show t = [] ++ t.filter (keyAbsent [])
    rw [List.nil_append]
    symm
    apply List.filter_eq_self.mpr
    intro x _
    simp [keyAbsent]
  | cons r gs ih =>
    intro t
    show syncGames (upsertGame t r) gs
      = syncGames (upsertGame [] r) gs ++ t.filter (keyAbsent (r :: gs))
    rw [ih (upsertGame t r), ih (upsertGame [] r), List.append_assoc]
    congr 1
    unfold upsertGame
    rw [List.filter_nil]
    have hXY : (t.filter (fun x => x.appid != r.appid)).filter (keyAbsent gs)
        = t.filter (keyAbsent (r :: gs)) := by
      rw [List.filter_filter]
      apply List.filter_congr
      intro x _
      show (keyAbsent gs x && (x.appid != r.appid)) = keyAbsent (r :: gs) x
      by_cases h1 : x.appid = r.appid <;>
        by_cases h2 : x.appid ∈ gs.map GameRow.appid <;>
          simp [keyAbsent, List.mem_cons, h1, h2]
    rw [List.filter_cons, List.filter_cons, hXY]
    cases hk : keyAbsent gs r <;> simp [hk]

theorem mem_syncGames (games : List GameRow) : ∀ (t : List GameRow) (x : GameRow),
    x ∈ syncGames t games → x.appid ∈ games.map GameRow.appid ∨ x ∈ t := by
  induction games with
  | nil => exact fun t x h => Or.inr h
  | cons r gs ih =>
    intro t x h
    rcases ih (upsertGame t r) x h with h2 | h2
    · rw [List.map_cons]
      exact Or.inl (List.mem_cons_of_mem _ h2)
    · rcases List.mem_cons.mp h2 with rfl | h3
      · rw [List.map_cons]
        exact Or.inl (List.mem_cons_self _ _)
      · exact Or.inr (List.mem_of_mem_filter h3)

theorem syncGames_idem (t games : List GameRow) :
    syncGames (syncGames t games) games = syncGames t games := by
  rw [syncGames_decompose games (syncGames t games), syncGames_decompose games t,
    List.filter_append]
  have h1 : (syncGames [] games).filter (keyAbsent games) = [] := by
    rw [List.filter_eq_nil_iff]
    intro x hx
    rcases mem_syncGames games [] x hx with h | h
    · simp [keyAbsent, h]
    · exact absurd h (List.not_mem_nil x)
  rw [h1, List.nil_append]
  congr 1
  rw [List.filter_filter]
  apply List.filter_congr
  intro x _
  exact Bool.and_self _

/-- C10: the `games` table is keyed by `appid` (its primary key) and written
with `INSERT OR REPLACE`: starting from any table state with at most one row
per `appid` (in particular the freshly created empty table), after a sync
the table still has at most one row per `appid`, and replaying the same
service data leaves the table literally unchanged — the upsert loop is
idempotent. -/
theorem syncGames_pk_idempotent (t games : List GameRow)
    (h : (t.map GameRow.appid).Nodup) :
    ((syncGames t games).map GameRow.appid).Nodup ∧
    syncGames (syncGames t games) games = syncGames t games :=
  ⟨syncGames_keys_nodup games t h, syncGames_idem t games⟩

/-- First fetched game of the C10 example. -/
def sampleGame1 : GameRow :=
  { appid := 10, name := "Alpha", playtime_forever := 3, last_played := 0,
    installed := false }

/-- Second fetched game of the C10 example. -/
def sampleGame2 : GameRow :=
  { appid := 20, name := "Beta", playtime_forever := 0, last_played := 7,
    installed := true }

/-- Witness for C10 on a concrete two-game sync into the empty table. -/
theorem syncGames_pk_idempotent_witness :
    ((syncGames [] [sampleGame1, sampleGame2]).map GameRow.appid).Nodup ∧
    syncGames (syncGames [] [sampleGame1, sampleGame2]) [sampleGame1, sampleGame2]
      = syncGames [] [sampleGame1, sampleGame2] :=
  syncGames_pk_idempotent [] [sampleGame1, sampleGame2] (by decide)

end Noguisteam
